import Mathlib

/-!
# Verification of the idescan scan-processing pipeline

Shallow embedding of `supabase/functions/process-scan/index.ts` (the
asynchronous scan-processing and similarity-ranking pipeline) together with
proofs of the testable properties stated in the specification.

Strings are modelled by Lean `String`; the JavaScript string primitives the
pipeline uses (`split(',')`, `trim`, `toLowerCase`, `includes`,
`startsWith`, `substring(0, n)`) are re-implemented structurally on the
underlying character lists so that every definition is executable and
kernel-reducible.  JavaScript numbers are modelled by `ℚ`; the only numeric
operations the scorer performs (addition, multiplication, division by a
positive count, `Math.min`/`Math.max`, `Math.round`) are exact on the
rationals involved.
-/

namespace IdeScan

/-- List-level test that `pre` is an initial segment of `l`
    (models the check JavaScript `String.prototype.startsWith` performs). -/
def startsL : List Char → List Char → Bool
  | [], _ => true
  | _ :: _, [] => false
  | a :: as, b :: bs => a == b && startsL as bs

/-- `occursL needle hay`: `needle` occurs contiguously inside `hay`
    (models JavaScript `String.prototype.includes`). -/
def occursL (needle : List Char) : List Char → Bool
  | [] => startsL needle []
  | c :: cs => startsL needle (c :: cs) || occursL needle cs

/-- `String.prototype.includes`: substring occurrence on strings. -/
def includesStr (hay needle : String) : Bool :=
  occursL needle.toList hay.toList

/-- `String.prototype.startsWith` on strings. -/
def startsWithStr (s pre : String) : Bool :=
  startsL pre.toList s.toList

/-- `String.prototype.split(',')`: split a character list at every comma.
    The result is never empty: splitting the empty string yields `[[]]`. -/
def splitCommaL : List Char → List (List Char)
  | [] => [[]]
  | c :: cs =>
    if c = ',' then [] :: splitCommaL cs
    else
      match splitCommaL cs with
      | [] => [[c]]
      | t :: ts => (c :: t) :: ts

/-- `String.prototype.split(',')` on strings. -/
def splitComma (s : String) : List String :=
  (splitCommaL s.toList).map fun l => String.mk l

/-- `String.prototype.trim`: drop leading and trailing whitespace. -/
def trimL (l : List Char) : List Char :=
  ((l.dropWhile Char.isWhitespace).reverse.dropWhile Char.isWhitespace).reverse

/-- `String.prototype.trim` on strings. -/
def trimStr (s : String) : String :=
  String.mk (trimL s.toList)

/-- `String.prototype.toLowerCase` (ASCII case folding, as
    `Char.toLower` performs). -/
def lowerStr (s : String) : String :=
  String.mk (s.toList.map Char.toLower)

/-- `String.prototype.substring(0, n)`: the first `n` characters. -/
def takeStr (n : ℕ) (s : String) : String :=
  String.mk (s.toList.take n)

/-- Pipeline-internal candidate record, as pushed onto `allResults`
    (`process-scan/index.ts`, lines 89-97 and 177-185).  All sources fill
    every textual field with a string; only `url` can be absent
    (the USPTO branch pushes `url: null` when `patentNumber` is missing). -/
structure Candidate where
  title : String
  owner : String
  country : String
  source_type : String
  legal_status : String
  snippet : String
  url : Option String
deriving DecidableEq

/-- Persisted result row, the record shape built at lines 234-244 of
    `process-scan/index.ts` and inserted into `scan_results`. -/
structure ResultRow where
  scan_id : String
  title : String
  owner : String
  country : String
  similarity_score : ℚ
  source_type : String
  legal_status : String
  snippet : String
  url : String
deriving DecidableEq

/-- Auxiliary for `dedupFirst`: keep each string the first time it is seen
    (`seen` accumulates the strings already emitted). -/
def dedupFirstAux : List String → List String → List String
  | _, [] => []
  | seen, x :: xs =>
    if x ∈ seen then dedupFirstAux seen xs
    else x :: dedupFirstAux (x :: seen) xs

/-- Deduplicate keeping first occurrences, in order: the semantics of
    building a JavaScript `Set` from an array and iterating it. -/
def dedupFirst (l : List String) : List String := dedupFirstAux [] l

/-- `inputTerms` as built at line 204:
    `new Set(searchTerms.toLowerCase().split(',').map(t => t.trim()))`,
    rendered as the insertion-ordered list of distinct terms. -/
def inputTerms (searchTerms : String) : List String :=
  dedupFirst ((splitComma (lowerStr searchTerms)).map trimStr)

/-- JavaScript `Math.min` as a binary operation on numbers. -/
def minQ (a b : ℚ) : ℚ := if a ≤ b then a else b

/-- JavaScript `Math.max` as a binary operation on numbers. -/
def maxQ (a b : ℚ) : ℚ := if a ≤ b then b else a

/-- JavaScript `Math.round`: round half toward positive infinity. -/
def jsRound (q : ℚ) : ℤ := (q + 1 / 2).floor

/-- `Math.round(x * 100) / 100`: round to two decimal places (line 239). -/
def round2 (q : ℚ) : ℚ := (jsRound (q * 100) : ℚ) / 100

/-- The `matchCount` loop of lines 210-215: how many of the extracted
    terms occur in the candidate's lowercased `title snippet` text. -/
def matchCount (terms : List String) (resultText : String) : ℕ :=
  terms.countP fun t => includesStr resultText t

/-- One step of the `allResults.map(...)` body (lines 206-245): score a
    candidate and build its row, or return `none` when the candidate has no
    valid `http`/`https` URL.  `rand` is the value of
    `(Math.random() - 0.5) * 15` drawn for this candidate. -/
def buildRow (scanId : String) (terms : List String) (rand : ℚ) (c : Candidate) :
    Option ResultRow :=
  let resultText := lowerStr (c.title ++ " " ++ c.snippet)
  let mc := matchCount terms resultText
  let baseSimilarity : ℚ :=
    if c.source_type = "patent" ∧ c.country = "United States" then 75 else 55
  match c.url with
  | none => none
  | some u =>
    if startsWithStr u "http://" || startsWithStr u "https://" then
      let termBonus : ℚ := ((mc : ℚ) / (terms.length : ℚ)) * 20
      let similarityScore := maxQ 30 (minQ 95 (baseSimilarity + termBonus + rand))
      some { scan_id := scanId, title := c.title, owner := c.owner, country := c.country
             similarity_score := round2 similarityScore
             source_type := c.source_type, legal_status := c.legal_status
             snippet := takeStr 500 c.snippet, url := u }
    else none

/-- The whole `allResults.map(...).filter(r => r !== null)` stage
    (lines 206-245): one fresh random draw per candidate, indexed by
    position; candidates mapped to `null` are dropped. -/
def buildRows (scanId : String) (terms : List String) (rand : ℕ → ℚ) :
    ℕ → List Candidate → List ResultRow
  | _, [] => []
  | i, c :: cs =>
    match buildRow scanId terms (rand i) c with
    | none => buildRows scanId terms rand (i + 1) cs
    | some r => r :: buildRows scanId terms rand (i + 1) cs

/-- Stable insertion of a row into a list sorted by descending score: the
    row goes after every strictly higher-scored element and before every
    element scoring at most as much. -/
def insertDesc (x : ResultRow) : List ResultRow → List ResultRow
  | [] => [x]
  | y :: ys =>
    if x.similarity_score < y.similarity_score then y :: insertDesc x ys
    else x :: y :: ys

/-- `resultsToInsert.sort((a, b) => b.similarity_score - a.similarity_score)`
    (line 248).  ECMAScript `Array.prototype.sort` is stable, and every
    stable sort under the comparator's preorder produces the same output,
    so stable insertion sort by descending score is its exact model. -/
def sortDesc : List ResultRow → List ResultRow
  | [] => []
  | x :: xs => insertDesc x (sortDesc xs)

/-- Fields of one USPTO grant document that the pipeline reads
    (lines 88-97); each may be absent from the API payload. -/
structure PatentDoc where
  inventionTitle : Option String
  assigneeEntityName : Option String
  abstractText : Option String
  patentNumber : Option String
deriving DecidableEq

/-- The candidate pushed for one USPTO document (lines 89-97), with the
    code's defaults for missing fields and its Google-Patents URL. -/
def patentToCandidate (p : PatentDoc) : Candidate :=
  { title := p.inventionTitle.getD "Untitled Patent"
    owner := p.assigneeEntityName.getD "Unknown"
    country := "United States"
    source_type := "patent"
    legal_status := "Granted"
    snippet := (p.abstractText.map (takeStr 200)).getD ""
    url := p.patentNumber.map fun n => "https://patents.google.com/patent/US" ++ n }

/-- USPTO source contribution: `docs.slice(0, 5)` mapped to candidates
    (line 88); a failed or non-OK or docs-less response contributes
    nothing (lines 83-87 and the catch at line 101). -/
def usptoCandidates : Option (List PatentDoc) → List Candidate
  | none => []
  | some docs => (docs.take 5).map patentToCandidate

/-- One parsed company object from the AI web-extract JSON (line 172). -/
structure Company where
  title : String
  owner : String
  snippet : String
  url : Option String
deriving DecidableEq

/-- The candidate pushed for one company (lines 177-185). -/
def companyToCandidate (co : Company) : Candidate :=
  { title := co.title
    owner := co.owner
    country := "Global"
    source_type := "startup"
    legal_status := "Active"
    snippet := co.snippet
    url := co.url }

/-- The per-company guard of line 176: push only companies whose URL is
    present and starts with `http://` or `https://`. -/
def companyCandidates (cos : List Company) : List Candidate :=
  cos.filterMap fun co =>
    match co.url with
    | none => none
    | some u =>
      if startsWithStr u "http://" || startsWithStr u "https://" then
        some (companyToCandidate co)
      else none

/-- The queries derived from the query-generation response (line 131 and
    the `slice(0, 2)` of line 135):
    `content.trim().split(',').map(q => q.trim())`, first two. -/
def queriesOf (content : String) : List String :=
  ((splitComma (trimStr content)).map trimStr).take 2

/-- AI-discovery source contribution (lines 106-200): nothing when query
    generation failed; otherwise, for each of the at most two queries, the
    candidates parsed from that query's web-extract response (nothing for a
    query whose fetch, JSON match or parse failed). -/
def aiCandidates (queryGen : Option String)
    (webExtract : String → Option (List Company)) : List Candidate :=
  match queryGen with
  | none => []
  | some content =>
    (queriesOf content).flatMap fun q =>
      match webExtract q with
      | none => []
      | some cos => companyCandidates cos

/-- A row of the `scans` table as the pipeline reads it (line 32). -/
structure Scan where
  id : String
  text_input : String
  status : String
deriving DecidableEq

/-- The persistent store the pipeline touches: the `scans` table and the
    `scan_results` table. -/
structure Store where
  scans : List Scan
  results : List ResultRow
deriving DecidableEq

/-- Externally visible operations of one pipeline run: the calls made to
    remote services and the writes issued to the store. -/
inductive Effect where
  | extractKeyTerms (text : String)
  | queryUSPTO (terms : String)
  | genQueries (text terms : String)
  | webQuery (query : String)
  | insert (rows : List ResultRow)
  | setStatus (scanId status : String)
deriving DecidableEq

/-- The JSON completion report: success with a result count (HTTP 200) or
    an error message (HTTP 500), lines 272-278 and 295-301. -/
inductive RunResponse where
  | ok (resultsCount : ℕ)
  | err (msg : String)
deriving DecidableEq

/-- HTTP status of the completion report. -/
def httpStatus : RunResponse → ℕ
  | .ok _ => 200
  | .err _ => 500

/-- Oracle for one run: the initial store and the outcome of every
    external call.  `none` for a remote response means the call threw, was
    non-OK where the code checks `ok`, or was malformed where the code
    dereferences the payload — in each case the code path collapses to the
    same behaviour.  `insertOk` is whether the batch insert succeeds;
    `failStatusWriteOk` is whether the best-effort `failed` status write in
    the catch handler succeeds. -/
structure Env where
  store : Store
  keyTermsContent : Option String
  usptoDocs : Option (List PatentDoc)
  queryGenContent : Option String
  webExtract : String → Option (List Company)
  rand : ℕ → ℚ
  insertOk : Bool
  failStatusWriteOk : Bool

/-- The scan fetch of lines 32-36: `.eq('id', scanId).single()`. -/
def findScan (st : Store) (scanId : String) : Option Scan :=
  st.scans.find? fun sc => sc.id == scanId

/-- `allResults` after both source blocks have run (lines 71-200): USPTO
    candidates pushed first, then AI-discovery candidates. -/
def allCandidates (env : Env) : List Candidate :=
  usptoCandidates env.usptoDocs ++ aiCandidates env.queryGenContent env.webExtract

/-- `resultsToInsert` before the sort: the scored, URL-filtered batch in
    arrival order (lines 202-245). -/
def rawBatch (env : Env) (scanId searchTerms : String) : List ResultRow :=
  buildRows scanId (inputTerms searchTerms) env.rand 0 (allCandidates env)

/-- `resultsToInsert` as handed to the insert: the batch sorted by
    descending similarity score (line 248). -/
def finalBatch (env : Env) (scanId searchTerms : String) : List ResultRow :=
  sortDesc (rawBatch env scanId searchTerms)

/-- External calls the source-aggregation stage makes once key terms are in
    hand: the USPTO query, the query-generation call, and one web-extract
    call per derived query (none when query generation failed). -/
def sourceTrace (env : Env) (text searchTerms : String) : List Effect :=
  [Effect.queryUSPTO searchTerms, Effect.genQueries text searchTerms] ++
    match env.queryGenContent with
    | none => []
    | some content => (queriesOf content).map Effect.webQuery

/-- The catch handler's best-effort `failed` status write (lines 286-293):
    attempted only when the supabase client was initialised (it is created
    after the scan-id guard, line 29), and reaching the store only when the
    write itself does not throw; either way the original error is returned. -/
def catchTrace (inited writeOk : Bool) (scanId : String) : List Effect :=
  if inited && writeOk then [Effect.setStatus scanId "failed"] else []

/-- One whole invocation of the `process-scan` function (lines 9-303),
    as the list of effects it performs in order and its HTTP response.
    `scanId?` is `body.scanId`. -/
def runPipeline (env : Env) (scanId? : Option String) : List Effect × RunResponse :=
  match scanId? with
  | none => (catchTrace false env.failStatusWriteOk "", .err "Scan ID is required")
  | some scanId =>
    match findScan env.store scanId with
    | none =>
      (catchTrace true env.failStatusWriteOk scanId, .err "Scan not found")
    | some scan =>
      match env.keyTermsContent with
      | none =>
        (Effect.extractKeyTerms scan.text_input ::
           catchTrace true env.failStatusWriteOk scanId,
         .err "Fingerprint extraction failed")
      | some content =>
        let searchTerms := trimStr content
        let batch := finalBatch env scanId searchTerms
        let srcTrace :=
          Effect.extractKeyTerms scan.text_input ::
            sourceTrace env scan.text_input searchTerms
        if batch.isEmpty then
          (srcTrace ++ [Effect.setStatus scanId "completed"], .ok 0)
        else if env.insertOk then
          (srcTrace ++ [Effect.insert batch, Effect.setStatus scanId "completed"],
           .ok batch.length)
        else
          (srcTrace ++ catchTrace true env.failStatusWriteOk scanId,
           .err "Result insert failed")

/-- Meaning of one effect on the persistent store: an insert appends the
    batch to `scan_results`; a status write updates the matching scan rows
    (`UPDATE ... WHERE id = scanId`); remote calls do not touch the store. -/
def applyEffect (st : Store) : Effect → Store
  | .insert rows => { st with results := st.results ++ rows }
  | .setStatus scanId status =>
    { st with
      scans := st.scans.map fun sc =>
        if sc.id = scanId then { sc with status := status } else sc }
  | _ => st

/-- The store after a run's effects have been applied in order. -/
def applyTrace (st : Store) (tr : List Effect) : Store :=
  tr.foldl applyEffect st

/-! Specification-side rendering of the deterministic lexical score, written
from the spec's words (claim C5) for comparison with the code's scorer:
`clamp(base + 20 * (matched-term count / term count), 30, 95)` rounded to
two decimal places, where a term matches iff it appears case-insensitively
in the candidate's concatenated title+snippet text, and base is 75 for a
United-States patent candidate and 55 otherwise. -/

/-- Clamp to `[30, 95]`, as the specification words it. -/
def specClamp (q : ℚ) : ℚ := if q < 30 then 30 else if 95 < q then 95 else q

/-- Spec-side term matching: the term appears, case-insensitively, in the
    candidate's concatenated title+snippet text. -/
def specMatches (c : Candidate) (t : String) : Bool :=
  includesStr (lowerStr (c.title ++ " " ++ c.snippet)) (lowerStr t)

/-- Spec-side base score: 75 for a `patent` candidate from `United States`,
    55 otherwise. -/
def specBase (c : Candidate) : ℚ :=
  if c.source_type = "patent" ∧ c.country = "United States" then 75 else 55

/-- Spec-side deterministic lexical score of a candidate given the
    extracted search-terms string (random perturbation disabled). -/
def specScore (searchTerms : String) (c : Candidate) : ℚ :=
  let terms := inputTerms searchTerms
  round2 (specClamp (specBase c +
    20 * ((terms.countP (specMatches c) : ℚ) / (terms.length : ℚ))))

/-! ## Concrete fixtures used by the witness and counterexample theorems -/

/-- Concrete scan row used by witnesses. -/
def scanFix : Scan := ⟨"s1", "smart irrigation controller", "processing"⟩

/-- Concrete scan row with empty raw text. -/
def scanEmptyFix : Scan := ⟨"s2", "", "processing"⟩

/-- Concrete USPTO document used by witnesses. -/
def patentFix : PatentDoc :=
  ⟨some "Alpha Device", some "Acme", some "Boosts crops", some "42"⟩

/-- Concrete environment in which the run inserts exactly one result row. -/
def envInsertFix : Env :=
  { store := ⟨[scanFix], []⟩
    keyTermsContent := some "zz,yy"
    usptoDocs := some [patentFix]
    queryGenContent := none
    webExtract := fun _ => none
    rand := fun _ => 0
    insertOk := true
    failStatusWriteOk := true }

/-- The row the pipeline builds for `patentFix` when no term matches. -/
def rowFix : ResultRow :=
  ⟨"s1", "Alpha Device", "Acme", "United States", 75, "patent", "Granted",
    "Boosts crops", "https://patents.google.com/patent/US42"⟩

/-- Concrete environment whose stored scan has empty raw text and whose
    sources all fail. -/
def envEmptyTextFix : Env :=
  { store := ⟨[scanEmptyFix], []⟩
    keyTermsContent := some "zz,yy"
    usptoDocs := none
    queryGenContent := none
    webExtract := fun _ => none
    rand := fun _ => 0
    insertOk := true
    failStatusWriteOk := true }

/-! ## Sanity checks on the string primitives -/

example : splitComma "a,b" = ["a", "b"] := by decide
example : splitComma "" = [""] := by decide
example : includesStr "hello world" "lo w" = true := by decide
example : startsWithStr "https://x.com" "https://" = true := by decide
example : trimStr "  ab c  " = "ab c" := by decide
example : lowerStr "AbC" = "abc" := by decide
example : takeStr 2 "abcd" = "ab" := by decide

/-! ## Character and string lemmas -/

theorem charToNat_ofNat (n : ℕ) (h : n < 55296) : (Char.ofNat n).toNat = n := by
  have hv : n.isValidChar := Or.inl h
  simp [Char.ofNat, hv, Char.ofNatAux, Char.toNat, UInt32.toNat]

theorem toLower_toLower (c : Char) : c.toLower.toLower = c.toLower := by
  simp only [Char.toLower]
  by_cases h : c.toNat ≥ 65 ∧ c.toNat ≤ 90
  · rw [if_pos h]
    have hn : (Char.ofNat (c.toNat + 32)).toNat = c.toNat + 32 :=
      charToNat_ofNat _ (by omega)
    rw [if_neg]
    rw [hn]
    omega
  · rw [if_neg h, if_neg h]

theorem mem_trimL_subset {c : Char} {l : List Char} (h : c ∈ trimL l) : c ∈ l := by
  unfold trimL at h
  rw [List.mem_reverse] at h
  have h1 := (List.dropWhile_sublist Char.isWhitespace).subset h
  rw [List.mem_reverse] at h1
  exact (List.dropWhile_sublist Char.isWhitespace).subset h1

theorem splitCommaL_ne_nil (l : List Char) : splitCommaL l ≠ [] := by
  induction l with
  | nil => simp [splitCommaL]
  | cons c cs ih =>
    simp only [splitCommaL]
    split
    · simp
    · cases h : splitCommaL cs with
      | nil => simp
      | cons t ts => simp

theorem splitComma_ne_nil (s : String) : splitComma s ≠ [] := by
  simpa [splitComma] using splitCommaL_ne_nil s.toList

theorem mem_splitCommaL_subset {t : List Char} {l : List Char}
    (ht : t ∈ splitCommaL l) : ∀ c ∈ t, c ∈ l := by
  induction l generalizing t with
  | nil =>
    simp only [splitCommaL, List.mem_singleton] at ht
    subst ht; intro c hc; cases hc
  | cons a as ih =>
    simp only [splitCommaL] at ht
    by_cases ha : a = ','
    · rw [if_pos ha] at ht
      rcases List.mem_cons.mp ht with h | h
      · subst h; intro c hc; cases hc
      · intro c hc; exact List.mem_cons_of_mem a (ih h c hc)
    · rw [if_neg ha] at ht
      cases hs : splitCommaL as with
      | nil => exact absurd hs (splitCommaL_ne_nil as)
      | cons t' ts =>
        rw [hs] at ht
        rcases List.mem_cons.mp ht with h | h
        · subst h
          intro c hc
          rcases List.mem_cons.mp hc with h | h
          · subst h; exact List.mem_cons_self _ _
          · exact List.mem_cons_of_mem a (ih (hs ▸ List.mem_cons_self t' ts) c h)
        · intro c hc
          exact List.mem_cons_of_mem a (ih (hs ▸ List.mem_cons_of_mem t' h) c hc)

theorem mem_dedupFirstAux_subset {t : String} :
    ∀ {seen l : List String}, t ∈ dedupFirstAux seen l → t ∈ l := by
  intro seen l
  induction l generalizing seen with
  | nil => intro h; cases h
  | cons x xs ih =>
    intro h
    simp only [dedupFirstAux] at h
    by_cases hx : x ∈ seen
    · rw [if_pos hx] at h
      exact List.mem_cons_of_mem x (ih h)
    · rw [if_neg hx] at h
      rcases List.mem_cons.mp h with h | h
      · subst h; exact List.mem_cons_self _ _
      · exact List.mem_cons_of_mem x (ih h)

theorem mem_dedupFirst_subset {t : String} {l : List String}
    (h : t ∈ dedupFirst l) : t ∈ l :=
  mem_dedupFirstAux_subset h

/-! ## Numeric lemmas about the score arithmetic -/

theorem ratFloor_eq_intFloor (q : ℚ) : q.floor = ⌊q⌋ := by
  rw [Rat.floor_def', Rat.floor_def]

theorem round2_bounds {q : ℚ} (h30 : 30 ≤ q) (h95 : q ≤ 95) :
    30 ≤ round2 q ∧ round2 q ≤ 95 := by
  unfold round2 jsRound
  rw [ratFloor_eq_intFloor]
  constructor
  · have h1 : (3000 : ℤ) ≤ ⌊q * 100 + 1 / 2⌋ := by
      apply Int.le_floor.mpr
      push_cast
      linarith
    have h2 : (3000 : ℚ) ≤ (⌊q * 100 + 1 / 2⌋ : ℚ) := by exact_mod_cast h1
    rw [le_div_iff₀ (by norm_num : (0:ℚ) < 100)]
    linarith
  · have h1 : ⌊q * 100 + 1 / 2⌋ < 9501 := by
      apply Int.floor_lt.mpr
      push_cast
      linarith
    have h2 : (⌊q * 100 + 1 / 2⌋ : ℚ) ≤ 9500 := by
      have : ⌊q * 100 + 1 / 2⌋ ≤ 9500 := by omega
      exact_mod_cast this
    rw [div_le_iff₀ (by norm_num : (0:ℚ) < 100)]
    linarith

theorem maxQ_minQ_bounds (e : ℚ) :
    30 ≤ maxQ 30 (minQ 95 e) ∧ maxQ 30 (minQ 95 e) ≤ 95 := by
  unfold maxQ minQ
  split_ifs <;> constructor <;> linarith

theorem maxQ_minQ_eq_specClamp (e : ℚ) : maxQ 30 (minQ 95 e) = specClamp e := by
  unfold maxQ minQ specClamp
  split_ifs <;> linarith

/-! ## Inversion of the per-candidate scoring step -/

theorem buildRow_inv {scanId : String} {terms : List String} {rand : ℚ}
    {c : Candidate} {r : ResultRow}
    (h : buildRow scanId terms rand c = some r) :
    ∃ u, c.url = some u ∧
      (startsWithStr u "http://" = true ∨ startsWithStr u "https://" = true) ∧
      r.scan_id = scanId ∧ r.title = c.title ∧ r.owner = c.owner ∧
      r.country = c.country ∧
      r.similarity_score = round2 (maxQ 30 (minQ 95 (
        (if c.source_type = "patent" ∧ c.country = "United States" then (75:ℚ) else 55) +
        ((matchCount terms (lowerStr (c.title ++ " " ++ c.snippet)) : ℚ) /
          (terms.length : ℚ)) * 20 + rand))) ∧
      r.source_type = c.source_type ∧ r.legal_status = c.legal_status ∧
      r.snippet = takeStr 500 c.snippet ∧ r.url = u := by
  cases hu : c.url with
  | none => simp [buildRow, hu] at h
  | some u =>
    by_cases hv : (startsWithStr u "http://" || startsWithStr u "https://") = true
    · refine ⟨u, rfl, Bool.or_eq_true_iff.mp hv, ?_⟩
      simp only [buildRow, hu, hv, if_true] at h
      obtain rfl := Option.some.injEq _ _ ▸ h
      simp_all
    · simp only [buildRow, hu] at h
      rw [if_neg hv] at h
      cases h

theorem buildRow_none_of_bad_url {scanId : String} {terms : List String}
    {rand : ℚ} {c : Candidate}
    (h : ∀ u, c.url = some u →
      (startsWithStr u "http://" || startsWithStr u "https://") = false) :
    buildRow scanId terms rand c = none := by
  cases hu : c.url with
  | none => simp [buildRow, hu]
  | some u => simp [buildRow, hu, h u hu]

theorem mem_buildRows {scanId : String} {terms : List String} {rand : ℕ → ℚ}
    {r : ResultRow} :
    ∀ {i : ℕ} {cs : List Candidate}, r ∈ buildRows scanId terms rand i cs →
      ∃ j c, c ∈ cs ∧ buildRow scanId terms (rand j) c = some r := by
  intro i cs
  induction cs generalizing i with
  | nil => intro h; cases h
  | cons c cs ih =>
    intro h
    simp only [buildRows] at h
    cases hb : buildRow scanId terms (rand i) c with
    | none =>
      rw [hb] at h
      obtain ⟨j, c', hc', hr⟩ := ih h
      exact ⟨j, c', List.mem_cons_of_mem c hc', hr⟩
    | some r' =>
      rw [hb] at h
      rcases List.mem_cons.mp h with h | h
      · exact ⟨i, c, List.mem_cons_self _ _, h ▸ hb⟩
      · obtain ⟨j, c', hc', hr⟩ := ih h
        exact ⟨j, c', List.mem_cons_of_mem c hc', hr⟩

/-! ## The sort: permutation, order, stability -/

theorem insertDesc_perm (x : ResultRow) (l : List ResultRow) :
    (insertDesc x l).Perm (x :: l) := by
  induction l with
  | nil => exact List.Perm.refl _
  | cons y ys ih =>
    unfold insertDesc
    split
    · exact ((ih.cons y).trans (List.Perm.swap x y ys))
    · exact List.Perm.refl _

theorem sortDesc_perm (l : List ResultRow) : (sortDesc l).Perm l := by
  induction l with
  | nil => exact List.Perm.refl _
  | cons x xs ih =>
    exact (insertDesc_perm x (sortDesc xs)).trans (ih.cons x)

theorem insertDesc_pairwise {x : ResultRow} {l : List ResultRow}
    (h : l.Pairwise fun a b => b.similarity_score ≤ a.similarity_score) :
    (insertDesc x l).Pairwise fun a b => b.similarity_score ≤ a.similarity_score := by
  induction l with
  | nil => simp [insertDesc]
  | cons y ys ih =>
    rcases List.pairwise_cons.mp h with ⟨hy, hys⟩
    unfold insertDesc
    split
    · rename_i hlt
      apply List.Pairwise.cons
      · intro z hz
        rcases List.mem_cons.mp ((insertDesc_perm x ys).mem_iff.mp hz) with h' | h'
        · exact h' ▸ le_of_lt hlt
        · exact hy z h'
      · exact ih hys
    · rename_i hge
      apply List.Pairwise.cons
      · intro z hz
        rcases List.mem_cons.mp hz with h' | h'
        · exact h' ▸ le_of_not_lt hge
        · exact le_trans (hy z h') (le_of_not_lt hge)
      · exact h

theorem sortDesc_pairwise (l : List ResultRow) :
    (sortDesc l).Pairwise fun a b => b.similarity_score ≤ a.similarity_score := by
  induction l with
  | nil => exact List.Pairwise.nil
  | cons x xs ih => exact insertDesc_pairwise ih

theorem filter_insertDesc_of_eq {x : ResultRow} {q : ℚ} {l : List ResultRow}
    (hx : x.similarity_score = q) :
    (insertDesc x l).filter (fun r => decide (r.similarity_score = q)) =
      x :: l.filter (fun r => decide (r.similarity_score = q)) := by
  induction l with
  | nil => simp [insertDesc, hx]
  | cons y ys ih =>
    unfold insertDesc
    by_cases h : x.similarity_score < y.similarity_score
    · rw [if_pos h]
      have hy : ¬ y.similarity_score = q := by
        intro he
        rw [he, ← hx] at h
        exact lt_irrefl _ (hx ▸ h)
      simp only [List.filter_cons, decide_eq_true_eq]
      rw [if_neg hy, if_neg hy, ih]
    · rw [if_neg h]
      simp only [List.filter_cons, decide_eq_true_eq]
      rw [if_pos hx]

theorem filter_insertDesc_of_ne {x : ResultRow} {q : ℚ} {l : List ResultRow}
    (hx : ¬ x.similarity_score = q) :
    (insertDesc x l).filter (fun r => decide (r.similarity_score = q)) =
      l.filter (fun r => decide (r.similarity_score = q)) := by
  induction l with
  | nil => simp [insertDesc, hx]
  | cons y ys ih =>
    unfold insertDesc
    by_cases h : x.similarity_score < y.similarity_score
    · rw [if_pos h]
      simp only [List.filter_cons, decide_eq_true_eq]
      rw [ih]
    · rw [if_neg h]
      simp only [List.filter_cons, decide_eq_true_eq]
      rw [if_neg hx]

theorem sortDesc_filter (l : List ResultRow) (q : ℚ) :
    (sortDesc l).filter (fun r => decide (r.similarity_score = q)) =
      l.filter (fun r => decide (r.similarity_score = q)) := by
  induction l with
  | nil => rfl
  | cons x xs ih =>
    show (insertDesc x (sortDesc xs)).filter _ = _
    by_cases hx : x.similarity_score = q
    · rw [filter_insertDesc_of_eq hx, ih]
      simp only [List.filter_cons, decide_eq_true_eq]
      rw [if_pos hx]
    · rw [filter_insertDesc_of_ne hx, ih]
      simp only [List.filter_cons, decide_eq_true_eq]
      rw [if_neg hx]

/-! ## Shape of the run trace -/

theorem insert_not_mem_sourceTrace {env : Env} {text st : String}
    {rows : List ResultRow} : Effect.insert rows ∉ sourceTrace env text st := by
  unfold sourceTrace
  cases env.queryGenContent <;> simp

theorem insert_not_mem_catchTrace {i w : Bool} {sid : String}
    {rows : List ResultRow} : Effect.insert rows ∉ catchTrace i w sid := by
  unfold catchTrace
  split <;> simp

theorem setStatus_not_mem_sourceTrace {env : Env} {text st a b : String} :
    Effect.setStatus a b ∉ sourceTrace env text st := by
  unfold sourceTrace
  cases env.queryGenContent <;> simp

theorem insert_mem_run_inv {env : Env} {sid : String} {rows : List ResultRow}
    (h : Effect.insert rows ∈ (runPipeline env (some sid)).1) :
    ∃ scan content, findScan env.store sid = some scan ∧
      env.keyTermsContent = some content ∧ env.insertOk = true ∧
      rows = finalBatch env sid (trimStr content) := by
  simp only [runPipeline] at h
  cases hf : findScan env.store sid with
  | none =>
    rw [hf] at h
    exact absurd h insert_not_mem_catchTrace
  | some scan =>
    rw [hf] at h
    cases hk : env.keyTermsContent with
    | none =>
      simp only [hk] at h
      rcases List.mem_cons.mp h with h' | h'
      · cases h'
      · exact absurd h' insert_not_mem_catchTrace
    | some content =>
      simp only [hk] at h
      refine ⟨scan, content, rfl, rfl, ?_⟩
      by_cases hb : (finalBatch env sid (trimStr content)).isEmpty
      · rw [if_pos hb] at h
        simp only [List.cons_append, List.mem_cons, List.mem_append,
          List.mem_singleton] at h
        rcases h with h' | h' | h' | h'
        · cases h'
        · exact absurd h' insert_not_mem_sourceTrace
        · cases h'
        · cases h'
      · rw [if_neg hb] at h
        by_cases hio : env.insertOk
        · rw [if_pos hio] at h
          refine ⟨hio, ?_⟩
          simp only [List.cons_append, List.mem_cons, List.mem_append,
            List.mem_singleton] at h
          rcases h with h' | h' | h' | h' | h'
          · cases h'
          · exact absurd h' insert_not_mem_sourceTrace
          · exact Effect.insert.inj h'
          · cases h'
          · cases h'
        · rw [if_neg hio] at h
          simp only [List.cons_append, List.mem_cons, List.mem_append] at h
          rcases h with h' | h' | h'
          · cases h'
          · exact absurd h' insert_not_mem_sourceTrace
          · exact absurd h' insert_not_mem_catchTrace

/-! ## Evaluation of the fixtures -/

theorem buildRow_patentFix :
    buildRow "s1" ["zz", "yy"] 0 (patentToCandidate patentFix) = some rowFix := by
  have hmc : matchCount ["zz", "yy"]
      (lowerStr ((patentToCandidate patentFix).title ++ " " ++
        (patentToCandidate patentFix).snippet)) = 0 := by decide
  have hurl : (patentToCandidate patentFix).url =
      some "https://patents.google.com/patent/US42" := by decide
  have hv : (startsWithStr "https://patents.google.com/patent/US42" "http://" ||
      startsWithStr "https://patents.google.com/patent/US42" "https://") = true := by
    decide
  rw [buildRow]
  rw [hurl]
  simp only [hv, if_true, hmc]
  simp +decide only [rowFix, patentToCandidate, patentFix, ResultRow.mk.injEq,
    Option.some.injEq, Option.getD, Option.map]
  norm_num [minQ, maxQ, round2, jsRound, Rat.floor]

theorem finalBatch_envInsertFix :
    finalBatch envInsertFix "s1" (trimStr "zz,yy") = [rowFix] := by
  have hterms : inputTerms (trimStr "zz,yy") = ["zz", "yy"] := by decide
  have hcand : allCandidates envInsertFix = [patentToCandidate patentFix] := by decide
  have hrand : envInsertFix.rand 0 = 0 := rfl
  rw [finalBatch, rawBatch, hterms, hcand, buildRows, hrand, buildRow_patentFix,
    buildRows]
  rfl

theorem run_envInsertFix : runPipeline envInsertFix (some "s1") =
    ([Effect.extractKeyTerms "smart irrigation controller",
      Effect.queryUSPTO "zz,yy",
      Effect.genQueries "smart irrigation controller" "zz,yy",
      Effect.insert [rowFix], Effect.setStatus "s1" "completed"], .ok 1) := by
  have hf : findScan envInsertFix.store "s1" = some scanFix := by decide
  rw [runPipeline]
  simp only [hf]
  have hk : envInsertFix.keyTermsContent = some "zz,yy" := rfl
  simp only [hk, finalBatch_envInsertFix]
  rfl

/-! ## Claim C1: validity of persisted rows -/

theorem score_in_range (e : ℚ) :
    0 ≤ round2 (maxQ 30 (minQ 95 e)) ∧ round2 (maxQ 30 (minQ 95 e)) ≤ 100 := by
  obtain ⟨h1, h2⟩ := maxQ_minQ_bounds e
  obtain ⟨h3, h4⟩ := round2_bounds h1 h2
  exact ⟨by linarith, by linarith⟩

theorem empty_not_startsWith_http : startsWithStr "" "http://" = false := by decide

theorem empty_not_startsWith_https : startsWithStr "" "https://" = false := by decide

/-- C1: every Result row the pipeline hands to persistence has
`0 ≤ similarity_score ≤ 100` and a non-empty URL beginning with `http://`
or `https://`; and any candidate without such a URL is dropped (mapped to
`none`) by the scoring step before persistence. -/
theorem claim1_persisted_results_valid {env : Env} {sid : String}
    {rows : List ResultRow}
    (h : Effect.insert rows ∈ (runPipeline env (some sid)).1) :
    (∀ r ∈ rows, 0 ≤ r.similarity_score ∧ r.similarity_score ≤ 100 ∧
      (startsWithStr r.url "http://" = true ∨
        startsWithStr r.url "https://" = true) ∧ r.url ≠ "") ∧
    (∀ terms rand c, (∀ u, c.url = some u →
        (startsWithStr u "http://" || startsWithStr u "https://") = false) →
      buildRow sid terms rand c = none) := by
  constructor
  · intro r hr
    obtain ⟨scan, content, hf, hk, hio, hrows⟩ := insert_mem_run_inv h
    subst hrows
    rw [finalBatch] at hr
    have hr' : r ∈ rawBatch env sid (trimStr content) :=
      (sortDesc_perm _).mem_iff.mp hr
    rw [rawBatch] at hr'
    obtain ⟨j, c, hc, hbr⟩ := mem_buildRows hr'
    obtain ⟨u, hu, hurl, _, _, _, _, hscore, _, _, _, hru⟩ := buildRow_inv hbr
    refine ⟨?_, ?_, ?_, ?_⟩
    · rw [hscore]; exact (score_in_range _).1
    · rw [hscore]; exact (score_in_range _).2
    · rw [hru]; exact hurl
    · intro he
      rw [hru] at he
      subst he
      rcases hurl with h' | h'
      · rw [empty_not_startsWith_http] at h'; cases h'
      · rw [empty_not_startsWith_https] at h'; cases h'
  · intro terms rand c hc
    exact buildRow_none_of_bad_url hc

/-- Witness for C1 at the concrete environment `envInsertFix`, whose run
inserts exactly the row `rowFix`. -/
theorem claim1_witness :
    (Effect.insert [rowFix] ∈ (runPipeline envInsertFix (some "s1")).1) ∧
    (∀ r ∈ [rowFix], 0 ≤ r.similarity_score ∧ r.similarity_score ≤ 100 ∧
      (startsWithStr r.url "http://" = true ∨
        startsWithStr r.url "https://" = true) ∧ r.url ≠ "") := by
  have hmem : Effect.insert [rowFix] ∈ (runPipeline envInsertFix (some "s1")).1 := by
    rw [run_envInsertFix]
    simp
  exact ⟨hmem, (claim1_persisted_results_valid hmem).1⟩

/-! ## Claim C2: descending stable sort of the batch -/

/-- C2: the batch handed to persistence (`finalBatch`, the sorted
`resultsToInsert`) is in non-increasing order of `similarity_score`, is a
permutation of the scored batch in arrival order (`rawBatch`), and the sort
is stable with no other tie-break key: the rows carrying any given score
appear in exactly their arrival order. -/
theorem claim2_sorted_stable (env : Env) (sid searchTerms : String) :
    (finalBatch env sid searchTerms).Pairwise
      (fun a b => b.similarity_score ≤ a.similarity_score) ∧
    (finalBatch env sid searchTerms).Perm (rawBatch env sid searchTerms) ∧
    ∀ q : ℚ, (finalBatch env sid searchTerms).filter
        (fun r => decide (r.similarity_score = q)) =
      (rawBatch env sid searchTerms).filter
        (fun r => decide (r.similarity_score = q)) :=
  ⟨sortDesc_pairwise _, sortDesc_perm _, fun q => sortDesc_filter _ q⟩

/-! ## Claim C9: normalization-to-persistence round trip -/

/-- C9: a candidate with all fields present and a valid `http`/`https` URL
normalizes to a persisted row that preserves title, owner, country, source
kind and legal status unchanged, and carries a snippet equal to the
candidate's snippet truncated to at most 500 characters. -/
theorem claim9_roundtrip {sid : String} {terms : List String} {rand : ℚ}
    {c : Candidate} {u : String} (hu : c.url = some u)
    (hv : startsWithStr u "http://" = true ∨ startsWithStr u "https://" = true) :
    ∃ r, buildRow sid terms rand c = some r ∧
      r.title = c.title ∧ r.owner = c.owner ∧ r.country = c.country ∧
      r.source_type = c.source_type ∧ r.legal_status = c.legal_status ∧
      r.snippet = takeStr 500 c.snippet ∧ r.snippet.length ≤ 500 ∧ r.url = u := by
  have hv' : (startsWithStr u "http://" || startsWithStr u "https://") = true := by
    rcases hv with h | h <;> simp [h]
  have hex : ∃ r, buildRow sid terms rand c = some r := by
    rw [buildRow, hu]
    simp only [hv', if_true]
    exact ⟨_, rfl⟩
  obtain ⟨r, hr⟩ := hex
  obtain ⟨u', hcu, _, _, ht, how, hco, _, hst, hls, hsn, hru⟩ := buildRow_inv hr
  have huu : u' = u := by
    rw [hu] at hcu
    exact (Option.some.inj hcu).symm
  refine ⟨r, hr, ht, how, hco, hst, hls, hsn, ?_, by rw [hru, huu]⟩
  rw [hsn]
  have h : (takeStr 500 c.snippet).length = (c.snippet.toList.take 500).length := rfl
  rw [h, List.length_take]
  exact min_le_left _ _

/-- Witness for C9 at the concrete USPTO candidate `patentFix`. -/
theorem claim9_witness :
    (patentToCandidate patentFix).url =
        some "https://patents.google.com/patent/US42" ∧
    ∃ r, buildRow "s1" ["zz", "yy"] 0 (patentToCandidate patentFix) = some r ∧
      r.title = (patentToCandidate patentFix).title ∧
      r.owner = (patentToCandidate patentFix).owner ∧
      r.country = (patentToCandidate patentFix).country ∧
      r.source_type = (patentToCandidate patentFix).source_type ∧
      r.legal_status = (patentToCandidate patentFix).legal_status ∧
      r.snippet = takeStr 500 (patentToCandidate patentFix).snippet ∧
      r.snippet.length ≤ 500 ∧
      r.url = "https://patents.google.com/patent/US42" :=
  ⟨by decide, claim9_roundtrip (by decide) (Or.inr (by decide))⟩

/-! ## Claim C10: the scorer's divisor is never zero -/

theorem dedupFirst_length_pos {x : String} {xs : List String} :
    1 ≤ (dedupFirst (x :: xs)).length := by
  show 1 ≤ (dedupFirstAux [] (x :: xs)).length
  rw [dedupFirstAux]
  rw [if_neg (List.not_mem_nil x)]
  simp

/-- C10: for every search-terms string (the empty string included),
splitting on commas yields at least one element, the deduplicated term set
is non-empty, and the scorer's divisor `inputTerms.size` is at least 1, so
the keyword-fraction division is well-defined (never a division by zero). -/
theorem claim10_divisor_positive (s : String) :
    splitComma (lowerStr s) ≠ [] ∧ 1 ≤ (inputTerms s).length ∧
      ((inputTerms s).length : ℚ) ≠ 0 := by
  refine ⟨splitComma_ne_nil _, ?_, ?_⟩
  · unfold inputTerms
    cases hl : (splitComma (lowerStr s)).map trimStr with
    | nil =>
      exact absurd (List.map_eq_nil_iff.mp hl) (splitComma_ne_nil _)
    | cons x xs => exact dedupFirst_length_pos
  · have h : 1 ≤ (inputTerms s).length := by
      unfold inputTerms
      cases hl : (splitComma (lowerStr s)).map trimStr with
      | nil =>
        exact absurd (List.map_eq_nil_iff.mp hl) (splitComma_ne_nil _)
      | cons x xs => exact dedupFirst_length_pos
    intro he
    have : (inputTerms s).length = 0 := by exact_mod_cast he
    omega

/-! ## Claim C3: fingerprint extraction failure is fatal -/

theorem mem_catchTrace_iff {e : Effect} {i w : Bool} {sid : String} :
    e ∈ catchTrace i w sid ↔
      ((i && w) = true ∧ e = Effect.setStatus sid "failed") := by
  unfold catchTrace
  split <;> rename_i h <;> simp [h]

/-- C3: when the fingerprint-extraction call fails (`keyTermsContent` is
`none`: service unreachable or malformed response), the run aborts before
any source is queried — no USPTO query, no query generation, no web
extract, no insert — the caller gets the error response, the scan status is
transitioned to `failed` whenever the best-effort write goes through, and a
failure of that status write is swallowed: the response is identical whether
the write succeeds or not. -/
theorem claim3_extraction_failure_fatal {env : Env} {sid : String} {scan : Scan}
    (hf : findScan env.store sid = some scan)
    (hk : env.keyTermsContent = none) :
    (∀ t, Effect.queryUSPTO t ∉ (runPipeline env (some sid)).1) ∧
    (∀ a b, Effect.genQueries a b ∉ (runPipeline env (some sid)).1) ∧
    (∀ q, Effect.webQuery q ∉ (runPipeline env (some sid)).1) ∧
    (∀ rows, Effect.insert rows ∉ (runPipeline env (some sid)).1) ∧
    (runPipeline env (some sid)).2 = .err "Fingerprint extraction failed" ∧
    (env.failStatusWriteOk = true →
      Effect.setStatus sid "failed" ∈ (runPipeline env (some sid)).1) ∧
    (runPipeline { env with failStatusWriteOk := true } (some sid)).2 =
      (runPipeline { env with failStatusWriteOk := false } (some sid)).2 := by
  have key : runPipeline env (some sid) =
      (Effect.extractKeyTerms scan.text_input ::
        catchTrace true env.failStatusWriteOk sid,
       .err "Fingerprint extraction failed") := by
    simp only [runPipeline, hf, hk]
  have key2 : ∀ b : Bool,
      (runPipeline { env with failStatusWriteOk := b } (some sid)).2 =
        .err "Fingerprint extraction failed" := by
    intro b
    have hf' : findScan ({ env with failStatusWriteOk := b } : Env).store sid =
        some scan := hf
    have hk' : ({ env with failStatusWriteOk := b } : Env).keyTermsContent =
        none := hk
    simp only [runPipeline, hf', hk', hf, hk]
  refine ⟨?_, ?_, ?_, ?_, ?_, ?_, ?_⟩
  · intro t
    rw [key]
    simp [mem_catchTrace_iff]
  · intro a b
    rw [key]
    simp [mem_catchTrace_iff]
  · intro q
    rw [key]
    simp [mem_catchTrace_iff]
  · intro rows
    rw [key]
    simp [mem_catchTrace_iff]
  · rw [key]
  · intro hw
    rw [key]
    simp [mem_catchTrace_iff, hw]
  · rw [key2 true, key2 false]

/-- Witness for C3: the extraction-failure environment derived from
`envInsertFix`, at scan id `s1`. -/
theorem claim3_witness :
    findScan ({ envInsertFix with keyTermsContent := none } : Env).store "s1" =
        some scanFix ∧
    ({ envInsertFix with keyTermsContent := none } : Env).keyTermsContent =
        none ∧
    (runPipeline { envInsertFix with keyTermsContent := none }
        (some "s1")).2 = .err "Fingerprint extraction failed" ∧
    (∀ rows, Effect.insert rows ∉
      (runPipeline { envInsertFix with keyTermsContent := none }
        (some "s1")).1) ∧
    Effect.setStatus "s1" "failed" ∈
      (runPipeline { envInsertFix with keyTermsContent := none }
        (some "s1")).1 := by
  have hf : findScan ({ envInsertFix with keyTermsContent := none } : Env).store
      "s1" = some scanFix := by decide
  have hk : ({ envInsertFix with keyTermsContent := none } : Env).keyTermsContent
      = none := rfl
  obtain ⟨_, _, _, h4, h5, h6, _⟩ := claim3_extraction_failure_fatal hf hk
  exact ⟨hf, hk, h5, h4, h6 rfl⟩

/-! ## Claim C4: source failures are absorbed, empty runs complete -/

theorem aiCandidates_eq_nil {qg : Option String}
    {web : String → Option (List Company)}
    (h : qg = none ∨ ∀ q, web q = none) : aiCandidates qg web = [] := by
  rcases h with h | h
  · subst h
    rfl
  · cases qg with
    | none => rfl
    | some content =>
      show (queriesOf content).flatMap _ = []
      generalize queriesOf content = l
      induction l with
      | nil => rfl
      | cons q qs ih => simp [List.flatMap_cons, h q, ih]

/-- C4: when every external source fails — the USPTO call fails and the AI
path fails (query generation fails, or every web-extract call fails) — the
run still terminates with response `ok 0` and scan status `completed`, not
`failed`, and nothing is inserted; moreover each source contributes to the
candidate pool independently of the others (the pool is the concatenation
of the per-source contributions, a failed source contributing nothing). -/
theorem claim4_sources_fail_completed {env : Env} {sid : String} {scan : Scan}
    {content : String}
    (hf : findScan env.store sid = some scan)
    (hk : env.keyTermsContent = some content)
    (hu : env.usptoDocs = none)
    (hai : env.queryGenContent = none ∨ ∀ q, env.webExtract q = none) :
    (runPipeline env (some sid)).2 = .ok 0 ∧
    Effect.setStatus sid "completed" ∈ (runPipeline env (some sid)).1 ∧
    (∀ rows, Effect.insert rows ∉ (runPipeline env (some sid)).1) ∧
    Effect.setStatus sid "failed" ∉ (runPipeline env (some sid)).1 ∧
    allCandidates env = usptoCandidates env.usptoDocs ++
      aiCandidates env.queryGenContent env.webExtract := by
  have hcand : allCandidates env = [] := by
    unfold allCandidates
    rw [hu, aiCandidates_eq_nil hai]
    rfl
  have hbatch : finalBatch env sid (trimStr content) = [] := by
    unfold finalBatch rawBatch
    rw [hcand]
    rfl
  have key : runPipeline env (some sid) =
      (Effect.extractKeyTerms scan.text_input ::
        sourceTrace env scan.text_input (trimStr content) ++
        [Effect.setStatus sid "completed"], .ok 0) := by
    simp only [runPipeline, hf, hk, hbatch, List.isEmpty_nil, if_true]
  refine ⟨by rw [key], ?_, ?_, ?_, rfl⟩
  · rw [key]
    simp
  · intro rows
    rw [key]
    simp only [List.cons_append, List.mem_cons, List.mem_append,
      List.mem_singleton]
    rintro (h' | h' | h' | h')
    · cases h'
    · exact insert_not_mem_sourceTrace h'
    · cases h'
    · cases h'
  · rw [key]
    simp only [List.cons_append, List.mem_cons, List.mem_append,
      List.mem_singleton]
    rintro (h' | h' | h' | h')
    · cases h'
    · exact setStatus_not_mem_sourceTrace h'
    · exact absurd (Effect.setStatus.inj h').2 (by decide)
    · cases h'

/-- Witness for C4: the all-sources-fail environment derived from
`envInsertFix` (USPTO failing, AI query generation failing). -/
theorem claim4_witness :
    findScan ({ envInsertFix with usptoDocs := none } : Env).store "s1" =
        some scanFix ∧
    ({ envInsertFix with usptoDocs := none } : Env).keyTermsContent =
        some "zz,yy" ∧
    ({ envInsertFix with usptoDocs := none } : Env).usptoDocs = none ∧
    (runPipeline { envInsertFix with usptoDocs := none } (some "s1")).2 =
        .ok 0 ∧
    Effect.setStatus "s1" "completed" ∈
      (runPipeline { envInsertFix with usptoDocs := none } (some "s1")).1 ∧
    (∀ rows, Effect.insert rows ∉
      (runPipeline { envInsertFix with usptoDocs := none } (some "s1")).1) ∧
    Effect.setStatus "s1" "failed" ∉
      (runPipeline { envInsertFix with usptoDocs := none } (some "s1")).1 := by
  have hf : findScan ({ envInsertFix with usptoDocs := none } : Env).store "s1" =
      some scanFix := by decide
  have hk : ({ envInsertFix with usptoDocs := none } : Env).keyTermsContent =
      some "zz,yy" := rfl
  have hu : ({ envInsertFix with usptoDocs := none } : Env).usptoDocs = none :=
    rfl
  obtain ⟨h1, h2, h3, h4, _⟩ :=
    claim4_sources_fail_completed hf hk hu (Or.inl rfl)
  exact ⟨hf, hk, hu, h1, h2, h3, h4⟩

/-! ## Claim C6: one atomic batch insert, then the status flip -/

/-- C6: once key terms are in hand, the only insert the run can perform
carries exactly the full sorted batch; when the insert succeeds the status
flip to `completed` happens after it (the trace ends
`... insert batch, setStatus completed`), and the response reports the
batch size; when the batch insert fails nothing is inserted at all, the
scan is never marked `completed`, the status is transitioned to `failed`
(best-effort), and the run reports failure. -/
theorem claim6_atomic_batch_then_status {env : Env} {sid : String}
    {scan : Scan} {content : String}
    (hf : findScan env.store sid = some scan)
    (hk : env.keyTermsContent = some content) :
    (∀ rows, Effect.insert rows ∈ (runPipeline env (some sid)).1 →
      rows = finalBatch env sid (trimStr content)) ∧
    (env.insertOk = true → finalBatch env sid (trimStr content) ≠ [] →
      (runPipeline env (some sid)).1 =
        Effect.extractKeyTerms scan.text_input ::
          sourceTrace env scan.text_input (trimStr content) ++
          [Effect.insert (finalBatch env sid (trimStr content)),
            Effect.setStatus sid "completed"] ∧
      (runPipeline env (some sid)).2 =
        .ok (finalBatch env sid (trimStr content)).length) ∧
    (env.insertOk = false → finalBatch env sid (trimStr content) ≠ [] →
      (∀ rows, Effect.insert rows ∉ (runPipeline env (some sid)).1) ∧
      Effect.setStatus sid "completed" ∉ (runPipeline env (some sid)).1 ∧
      (env.failStatusWriteOk = true →
        Effect.setStatus sid "failed" ∈ (runPipeline env (some sid)).1) ∧
      (runPipeline env (some sid)).2 = .err "Result insert failed") := by
  refine ⟨?_, ?_, ?_⟩
  · intro rows h
    obtain ⟨scan', content', hf', hk', _, hrows⟩ := insert_mem_run_inv h
    rw [hk] at hk'
    obtain rfl := Option.some.inj hk'
    exact hrows
  · intro hio hne
    have hbe : (finalBatch env sid (trimStr content)).isEmpty = false := by
      cases hb : finalBatch env sid (trimStr content) with
      | nil => exact absurd hb hne
      | cons a l => rfl
    constructor
    · simp [runPipeline, hf, hk, hbe, hio]
    · simp [runPipeline, hf, hk, hbe, hio]
  · intro hio hne
    have hbe : (finalBatch env sid (trimStr content)).isEmpty = false := by
      cases hb : finalBatch env sid (trimStr content) with
      | nil => exact absurd hb hne
      | cons a l => rfl
    have key : runPipeline env (some sid) =
        (Effect.extractKeyTerms scan.text_input ::
          sourceTrace env scan.text_input (trimStr content) ++
          catchTrace true env.failStatusWriteOk sid,
         .err "Result insert failed") := by
      simp [runPipeline, hf, hk, hbe, hio]
    refine ⟨?_, ?_, ?_, by rw [key]⟩
    · intro rows
      rw [key]
      simp only [List.cons_append, List.mem_cons, List.mem_append]
      rintro (h' | h' | h')
      · cases h'
      · exact insert_not_mem_sourceTrace h'
      · exact insert_not_mem_catchTrace h'
    · rw [key]
      simp only [List.cons_append, List.mem_cons, List.mem_append]
      rintro (h' | h' | h')
      · cases h'
      · exact setStatus_not_mem_sourceTrace h'
      · rw [mem_catchTrace_iff] at h'
        exact absurd (Effect.setStatus.inj h'.2).2 (by decide)
    · intro hw
      rw [key]
      simp [mem_catchTrace_iff, hw]

/-- Witness for C6: the insert-failure environment derived from
`envInsertFix` (same one-row batch, but the batch write fails). -/
theorem claim6_witness :
    findScan ({ envInsertFix with insertOk := false } : Env).store "s1" =
        some scanFix ∧
    ({ envInsertFix with insertOk := false } : Env).keyTermsContent =
        some "zz,yy" ∧
    finalBatch { envInsertFix with insertOk := false } "s1"
        (trimStr "zz,yy") ≠ [] ∧
    (∀ rows, Effect.insert rows ∉
      (runPipeline { envInsertFix with insertOk := false } (some "s1")).1) ∧
    Effect.setStatus "s1" "completed" ∉
      (runPipeline { envInsertFix with insertOk := false } (some "s1")).1 ∧
    Effect.setStatus "s1" "failed" ∈
      (runPipeline { envInsertFix with insertOk := false } (some "s1")).1 ∧
    (runPipeline { envInsertFix with insertOk := false } (some "s1")).2 =
      .err "Result insert failed" := by
  have hf : findScan ({ envInsertFix with insertOk := false } : Env).store "s1" =
      some scanFix := by decide
  have hk : ({ envInsertFix with insertOk := false } : Env).keyTermsContent =
      some "zz,yy" := rfl
  have hb : finalBatch { envInsertFix with insertOk := false } "s1"
      (trimStr "zz,yy") = [rowFix] := finalBatch_envInsertFix
  have hne : finalBatch { envInsertFix with insertOk := false } "s1"
      (trimStr "zz,yy") ≠ [] := by
    rw [hb]
    simp
  obtain ⟨_, _, h3⟩ := claim6_atomic_batch_then_status hf hk
  obtain ⟨h4, h5, h6, h7⟩ := h3 rfl hne
  exact ⟨hf, hk, hne, h4, h5, h6 rfl, h7⟩

/-! ## Claim C7: there is no empty-text guard in the pipeline -/

/-- Counterexample to C7 as stated: invoked on the stored scan `s2` whose
raw text is empty, the pipeline does not raise `InvalidRequest` — it
contacts the fingerprint-extraction service with the empty text, queries
the sources, and completes with `ok 0`. -/
theorem claim7_counterexample :
    Effect.extractKeyTerms "" ∈ (runPipeline envEmptyTextFix (some "s2")).1 ∧
    Effect.queryUSPTO "zz,yy" ∈ (runPipeline envEmptyTextFix (some "s2")).1 ∧
    (runPipeline envEmptyTextFix (some "s2")).2 = .ok 0 ∧
    (runPipeline envEmptyTextFix (some "s2")).2 ≠ .err "Scan ID is required" := by
  have hf : findScan envEmptyTextFix.store "s2" = some scanEmptyFix := by decide
  have hbatch : finalBatch envEmptyTextFix "s2" (trimStr "zz,yy") = [] := rfl
  have key : runPipeline envEmptyTextFix (some "s2") =
      (Effect.extractKeyTerms "" ::
        sourceTrace envEmptyTextFix "" (trimStr "zz,yy") ++
        [Effect.setStatus "s2" "completed"], .ok 0) := by
    rw [runPipeline]
    simp only [hf]
    have hk : envEmptyTextFix.keyTermsContent = some "zz,yy" := rfl
    simp only [hk, hbatch, List.isEmpty_nil, if_true]
    rfl
  refine ⟨?_, ?_, by rw [key], by rw [key]; simp⟩
  · rw [key]
    simp
  · rw [key]
    have hsrc : sourceTrace envEmptyTextFix "" (trimStr "zz,yy") =
        [Effect.queryUSPTO "zz,yy",
         Effect.genQueries "" "zz,yy"] := rfl
    rw [hsrc]
    simp

/-- C7 amended: the pipeline performs no emptiness check on the scan's raw
text.  Invoked on a stored scan whose `text_input` is empty, with the
extraction service answering, it still contacts the fingerprint-extraction
service (with the empty text) and then queries the sources; the
`InvalidRequest` error (`"Scan ID is required"`) is raised only for a
missing scan id, never for empty text. -/
theorem claim7_no_empty_text_guard {env : Env} {sid : String} {scan : Scan}
    {content : String}
    (hf : findScan env.store sid = some scan)
    (he : scan.text_input = "")
    (hk : env.keyTermsContent = some content) :
    Effect.extractKeyTerms "" ∈ (runPipeline env (some sid)).1 ∧
    Effect.queryUSPTO (trimStr content) ∈ (runPipeline env (some sid)).1 ∧
    (runPipeline env (some sid)).2 ≠ .err "Scan ID is required" ∧
    (∀ env', (runPipeline env' none).2 = .err "Scan ID is required") := by
  refine ⟨?_, ?_, ?_, fun env' => rfl⟩
  · simp only [runPipeline, hf, hk, he]
    split_ifs <;> simp
  · simp only [runPipeline, hf, hk]
    split_ifs <;> simp [sourceTrace]
  · simp only [runPipeline, hf, hk]
    split_ifs <;> simp

/-- Witness for the amended C7 at the concrete environment
`envEmptyTextFix`. -/
theorem claim7_witness :
    findScan envEmptyTextFix.store "s2" = some scanEmptyFix ∧
    scanEmptyFix.text_input = "" ∧
    envEmptyTextFix.keyTermsContent = some "zz,yy" ∧
    Effect.extractKeyTerms "" ∈ (runPipeline envEmptyTextFix (some "s2")).1 ∧
    Effect.queryUSPTO (trimStr "zz,yy") ∈
      (runPipeline envEmptyTextFix (some "s2")).1 ∧
    (runPipeline envEmptyTextFix (some "s2")).2 ≠ .err "Scan ID is required" := by
  have hf : findScan envEmptyTextFix.store "s2" = some scanEmptyFix := by decide
  obtain ⟨h1, h2, h3, _⟩ := claim7_no_empty_text_guard hf rfl rfl
  exact ⟨hf, rfl, rfl, h1, h2, h3⟩

/-! ## Claim C8: invalid invocations mutate no persistent state -/

/-- C8: invoked with a missing scan id, or with a scan id that matches no
scan in the store, the pipeline reports an error to the caller (an `err`
response with HTTP status 500), inserts no result rows, and leaves the
store exactly as it was. -/
theorem claim8_no_mutation_on_invalid {env : Env} {sid? : Option String}
    (h : sid? = none ∨ ∃ sid, sid? = some sid ∧ findScan env.store sid = none) :
    applyTrace env.store (runPipeline env sid?).1 = env.store ∧
    (∀ rows, Effect.insert rows ∉ (runPipeline env sid?).1) ∧
    httpStatus (runPipeline env sid?).2 = 500 ∧
    ∃ msg, (runPipeline env sid?).2 = .err msg := by
  rcases h with h | ⟨sid, hs, hf⟩
  · subst h
    have key : runPipeline env none = ([], .err "Scan ID is required") := rfl
    rw [key]
    refine ⟨rfl, ?_, rfl, ⟨_, rfl⟩⟩
    intro rows hmem
    exact absurd hmem (List.not_mem_nil _)
  · subst hs
    have key : runPipeline env (some sid) =
        (catchTrace true env.failStatusWriteOk sid, .err "Scan not found") := by
      simp only [runPipeline, hf]
    have hnone : ∀ sc ∈ env.store.scans, ¬ sc.id = sid := by
      intro sc hsc
      have h' := List.find?_eq_none.mp hf sc hsc
      simpa using h'
    refine ⟨?_, ?_, by rw [key]; rfl, ⟨_, by rw [key]⟩⟩
    · rw [key]
      show applyTrace env.store (catchTrace true env.failStatusWriteOk sid) =
        env.store
      unfold catchTrace
      split
      · show applyEffect env.store (Effect.setStatus sid "failed") = env.store
        show ({ env.store with
          scans := env.store.scans.map fun sc =>
            if sc.id = sid then { sc with status := "failed" } else sc } : Store) =
          env.store
        have hmap : (env.store.scans.map fun sc =>
            if sc.id = sid then { sc with status := "failed" } else sc) =
            env.store.scans := by
          have : ∀ sc ∈ env.store.scans,
              (if sc.id = sid then { sc with status := "failed" } else sc) = sc := by
            intro sc hsc
            rw [if_neg (hnone sc hsc)]
          rw [List.map_congr_left this]
          exact List.map_id' _
        rw [hmap]
      · rfl
    · intro rows
      rw [key]
      exact insert_not_mem_catchTrace

/-- Witness for C8: invocation of `envInsertFix` with a missing scan id. -/
theorem claim8_witness :
    (none : Option String) = none ∧
    applyTrace envInsertFix.store (runPipeline envInsertFix none).1 =
      envInsertFix.store ∧
    (∀ rows, Effect.insert rows ∉ (runPipeline envInsertFix none).1) ∧
    httpStatus (runPipeline envInsertFix none).2 = 500 := by
  obtain ⟨h1, h2, h3, _⟩ :=
    @claim8_no_mutation_on_invalid envInsertFix none (Or.inl rfl)
  exact ⟨rfl, h1, h2, h3⟩

/-! ## Claim C5: the deterministic lexical score refines the spec formula -/

theorem lower_fixed_of_mem_inputTerms {s t : String} (h : t ∈ inputTerms s) :
    lowerStr t = t := by
  have h1 : t ∈ (splitComma (lowerStr s)).map trimStr := mem_dedupFirst_subset h
  obtain ⟨u, hu, rfl⟩ := List.mem_map.mp h1
  obtain ⟨lu, hlu, rfl⟩ := List.mem_map.mp hu
  have hchar : ∀ c ∈ trimL lu, Char.toLower c = c := by
    intro c hc
    have hc1 : c ∈ lu := mem_trimL_subset hc
    have hc2 : c ∈ s.toList.map Char.toLower := mem_splitCommaL_subset hlu c hc1
    obtain ⟨c', _, rfl⟩ := List.mem_map.mp hc2
    exact toLower_toLower c'
  show String.mk ((trimL lu).map Char.toLower) = String.mk (trimL lu)
  congr 1
  rw [List.map_congr_left hchar]
  exact List.map_id' _

theorem matchCount_eq_specCount (s : String) (c : Candidate) :
    matchCount (inputTerms s) (lowerStr (c.title ++ " " ++ c.snippet)) =
      (inputTerms s).countP (specMatches c) := by
  unfold matchCount
  apply List.countP_congr
  intro t ht
  unfold specMatches
  rw [lower_fixed_of_mem_inputTerms ht]

/-- C5: with the random perturbation disabled (set to 0), the lexical
scorer is a pure function of its inputs: every persisted score equals
`clamp(base + 20 * (matched-term count / term count), 30, 95)` rounded to
two decimal places, where base is 75 for a `patent` candidate from
`United States` and 55 otherwise, and a term matches iff it appears
case-insensitively in the candidate's concatenated title+snippet text
(`specScore`, written from the spec's words); and identical candidate
input yields identical score output. -/
theorem claim5_score_is_spec_formula {sid ts : String} {c : Candidate}
    {r : ResultRow}
    (h : buildRow sid (inputTerms ts) 0 c = some r) :
    r.similarity_score = specScore ts c ∧
    ∀ c₂, c₂ = c → buildRow sid (inputTerms ts) 0 c₂ = some r := by
  constructor
  · obtain ⟨u, hu, hurl', _, _, _, _, hscore, _, _, _, _⟩ := buildRow_inv h
    rw [hscore]
    unfold specScore
    rw [maxQ_minQ_eq_specClamp]
    congr 1
    congr 1
    rw [matchCount_eq_specCount]
    unfold specBase
    ring
  · intro c₂ h₂
    rw [h₂]
    exact h

/-- Witness for C5 at the concrete candidate `patentFix` with extracted
terms `"zz,yy"` (no term matches, so the score is exactly 75). -/
theorem claim5_witness :
    buildRow "s1" (inputTerms "zz,yy") 0 (patentToCandidate patentFix) =
      some rowFix ∧
    rowFix.similarity_score = specScore "zz,yy" (patentToCandidate patentFix) := by
  have hterms : inputTerms "zz,yy" = ["zz", "yy"] := by decide
  have hb : buildRow "s1" (inputTerms "zz,yy") 0 (patentToCandidate patentFix) =
      some rowFix := by
    rw [hterms]
    exact buildRow_patentFix
  exact ⟨hb, (claim5_score_is_spec_formula hb).1⟩

end IdeScan
